import Mathlib

/-!
Formal model of the overtime-helper shift classification and aggregation
pipeline (`app.py`), together with proofs of the behavioural claims made
about it.

Conventions of the embedding:

* Calendar dates are day numbers counted from Monday 2024-12-30, so that
  `d % 7` is the pandas weekday index (Monday = 0) and `d - d % 7` is the
  Monday of the week of `d`, exactly as
  `df["shift_date"] - pd.to_timedelta(df["shift_date"].dt.weekday, unit="D")`.
* Hours are rationals.
* A raw `total_scheduled` cell is `Option ℚ`: `some q` when
  `pd.to_numeric(..., errors="coerce")` parses the cell to `q`, and `none`
  when the cell is missing or non-numeric text such as "N/A" (pandas
  produces NaN there, which `fillna(0.0)` turns into `0.0`).
* A raw `shift_date` cell is `Option Nat`: `none` when `pd.to_datetime`
  cannot parse it, in which case pandas raises and the whole run fails.
* DataFrames are lists of typed records.  Sort order of strings is the
  lexicographic order on their characters, as in pandas.
* The source also manipulates dynamic column sets (a pandas DataFrame can
  gain and lose columns); that schema-level behaviour is modelled
  separately by `..._columns` functions mapping input column lists to
  output column lists, mirroring each assignment and projection of the
  source.
-/

/-- Kenyan gazetted public holidays for 2025 (`KENYA_BANK_HOLIDAYS_2025` in
the source), as day numbers from Monday 2024-12-30: Jan 1, Mar 31, Apr 18,
Apr 21, May 1, Jun 1, Jun 7, Oct 10, Oct 20, Dec 12, Dec 25, Dec 26. -/
def KENYA_BANK_HOLIDAYS_2025 : List Nat :=
  [2, 91, 109, 112, 122, 153, 159, 284, 294, 347, 360, 361]

/-- The configured holiday region string (`KENYA_TZ` in the source). -/
def KENYA_TZ : String := "Africa/Nairobi"

/-- Weekday names indexed by `d % 7`, used for `dt.day_name()`. -/
def DAY_NAMES : List String :=
  ["Monday", "Tuesday", "Wednesday", "Thursday", "Friday", "Saturday", "Sunday"]

/-- One raw Dialpad CSV row (§3 RawShiftRecord). -/
structure RawShiftRecord where
  shift_date : Option Nat
  first_name : String
  last_name : String
  email : String
  total_scheduled : Option ℚ
  subtype : String
  surfer_timezone : String
deriving DecidableEq

/-- A raw input table: its rows, plus which of the optional columns are
present (the source tests `"total_scheduled" in df.columns` and so on at
table level). -/
structure RawTable where
  rows : List RawShiftRecord
  has_total_scheduled : Bool
  has_first_name : Bool
  has_last_name : Bool
  has_subtype : Bool
  has_surfer_timezone : Bool
deriving DecidableEq

/-- An enriched shift row (§3 EnrichedShift).  The classifier and deriver
columns (`is_ot_day`, `shift_days`, `ot_hours`, `bh_hours`) exist on the
record from the start with inert values `false` / `0`; the source actually
adds those columns later, and `flag_overtime_days` starts by overwriting
`is_ot_day` with `False` anyway. -/
structure EnrichedShift where
  shift_date : Nat
  day_name : String
  hours_worked : ℚ
  scheduled_hours : ℚ
  paid_hours : ℚ
  full_name : String
  email : String
  week_start : Nat
  shift_name : String
  is_kenya_employee : Bool
  is_bank_holiday : Bool
  is_ot_day : Bool
  shift_days : ℚ
  ot_hours : ℚ
  bh_hours : ℚ
deriving DecidableEq

/-- Result of `pd.to_datetime(df["shift_date"])`: the parsed dates, or the
error pandas raises at the first unparseable cell. -/
def parse_dates : List RawShiftRecord → Except String (List (RawShiftRecord × Nat))
  | [] => Except.ok []
  | r :: rs =>
    match r.shift_date with
    | none => Except.error "Unable to parse shift_date"
    | some d =>
      match parse_dates rs with
      | Except.error e => Except.error e
      | Except.ok ps => Except.ok ((r, d) :: ps)

/-- The per-row content of `prepare_shifts`, applied to a row paired with
its parsed date. -/
def enrich_row (t : RawTable) (enable_kenyan_bh : Bool) (shift_hours : ℚ)
    (rd : RawShiftRecord × Nat) : EnrichedShift :=
  let r := rd.1
  let d := rd.2
  let hours_worked : ℚ := if t.has_total_scheduled then r.total_scheduled.getD 0 else 0
  let scheduled : ℚ := hours_worked
  let paid : ℚ := if scheduled ≥ shift_hours then scheduled - 1 else scheduled
  let first : String := if t.has_first_name then r.first_name else ""
  let last : String := if t.has_last_name then r.last_name else ""
  let full : String := (first.trim ++ " " ++ last.trim).trim
  let sname : String := if t.has_subtype then r.subtype else ""
  let kenyan : Bool := if t.has_surfer_timezone then r.surfer_timezone == KENYA_TZ else false
  let bh : Bool := if enable_kenyan_bh then kenyan && KENYA_BANK_HOLIDAYS_2025.contains d else false
  { shift_date := d
    day_name := DAY_NAMES.getD (d % 7) ""
    hours_worked := hours_worked
    scheduled_hours := scheduled
    paid_hours := paid
    full_name := full
    email := r.email
    week_start := d - d % 7
    shift_name := sname
    is_kenya_employee := kenyan
    is_bank_holiday := bh
    is_ot_day := false
    shift_days := 0
    ot_hours := 0
    bh_hours := 0 }

/-- `prepare_shifts`: normalise the raw table and flag bank holidays.
Fails (as pandas does) when any `shift_date` cell is unparseable. -/
def prepare_shifts (t : RawTable) (enable_kenyan_bh : Bool) (shift_hours : ℚ) :
    Except String (List EnrichedShift) :=
  match parse_dates t.rows with
  | Except.error e => Except.error e
  | Except.ok ps => Except.ok (ps.map (enrich_row t enable_kenyan_bh shift_hours))

/-- pandas `Series.unique()`: the distinct values in order of first
appearance (the head is kept and later copies of it are filtered out of the
deduplicated tail; `uniqueInOrder_cons_eq` below shows this equals the more
familiar filter-first formulation). -/
def uniqueInOrder {α : Type} [DecidableEq α] : List α → List α
  | [] => []
  | a :: l => a :: (uniqueInOrder l).filter (fun x => x ≠ a)

/-- Sort key of `df.sort_values(["email", "week_start", "shift_date"])`. -/
def shiftSortKey (s : EnrichedShift) : Lex ((List Char) × Lex (Nat × Nat)) :=
  toLex (s.email.data, toLex (s.week_start, s.shift_date))

/-- The comparison used by `sort_values(["email", "week_start", "shift_date"])`. -/
def shiftLe (a b : EnrichedShift) : Prop := shiftSortKey a ≤ shiftSortKey b

instance : DecidableRel shiftLe :=
  fun a b => inferInstanceAs (Decidable (shiftSortKey a ≤ shiftSortKey b))

instance : IsTotal EnrichedShift shiftLe :=
  ⟨fun a b => le_total (shiftSortKey a) (shiftSortKey b)⟩

instance : IsTrans EnrichedShift shiftLe :=
  ⟨fun _ _ _ h₁ h₂ => le_trans h₁ h₂⟩

/-- The groupby key of the overtime classifier. -/
def groupKey (s : EnrichedShift) : String × Nat := (s.email, s.week_start)

/-- Body of `_mark_group` in `flag_overtime_days`: inside one
`(email, week_start)` group, the distinct dates beyond the first
`contracted_days_per_week` (in the order the group presents them) become
overtime dates, and every shift on such a date is flagged. -/
def mark_group (contracted_days_per_week : Nat) (group : List EnrichedShift) :
    List EnrichedShift :=
  let unique_dates := uniqueInOrder (group.map (fun s => s.shift_date))
  if unique_dates.length ≤ contracted_days_per_week then group
  else
    let ot_dates := unique_dates.drop contracted_days_per_week
    group.map (fun s => { s with is_ot_day := ot_dates.contains s.shift_date })

/-- `flag_overtime_days`: sort by (email, week_start, shift_date), reset
`is_ot_day` to `False`, then apply `_mark_group` to each
`(email, week_start)` group, concatenating the groups back together
(`group_keys=False`). -/
def flag_overtime_days (l : List EnrichedShift) (contracted_days_per_week : Nat) :
    List EnrichedShift :=
  let s := (l.insertionSort shiftLe).map (fun r => { r with is_ot_day := false })
  (uniqueInOrder (s.map groupKey)).flatMap
    (fun k => mark_group contracted_days_per_week (s.filter (fun r => groupKey r = k)))

/-- `add_shift_duration_and_flags`: `shift_days`, `ot_hours`, `bh_hours`. -/
def add_shift_duration_and_flags (l : List EnrichedShift) (shift_hours : ℚ) :
    List EnrichedShift :=
  l.map (fun s =>
    { s with
      shift_days := s.scheduled_hours / shift_hours
      ot_hours := if s.is_ot_day then s.scheduled_hours else 0
      bh_hours := if s.is_bank_holiday then s.scheduled_hours else 0 })

/-- One row of the granular OT / bank-holiday table. -/
structure GranularRow where
  team : String
  full_name : String
  email : String
  date : Nat
  day_type : String
  shift_name : String
  scheduled_hours : ℚ
  shift_days : ℚ
deriving DecidableEq

/-- The `_day_type` tie-break of `build_granular_table`:
Bank holiday beats Overtime beats Standard. -/
def day_type_of (s : EnrichedShift) : String :=
  if s.is_bank_holiday then "Bank holiday"
  else if s.is_ot_day then "Overtime"
  else "Standard"

/-- Projection of an enriched shift to a granular row. -/
def toGranularRow (team_name : String) (s : EnrichedShift) : GranularRow :=
  { team := team_name
    full_name := s.full_name
    email := s.email
    date := s.shift_date
    day_type := day_type_of s
    shift_name := s.shift_name
    scheduled_hours := s.scheduled_hours
    shift_days := s.shift_days }

/-- Sort key of `granular.sort_values(["team", "full_name", "date"])`. -/
def granularSortKey (g : GranularRow) : Lex ((List Char) × Lex ((List Char) × Nat)) :=
  toLex (g.team.data, toLex (g.full_name.data, g.date))

/-- `build_granular_table`: one row per OT / bank-holiday shift, sorted by
(team, full_name, date); an empty filter result is returned as is. -/
def build_granular_table (l : List EnrichedShift) (team_name : String) :
    List GranularRow :=
  let granular := l.filter (fun s => s.is_ot_day || s.is_bank_holiday)
  if granular = [] then []
  else
    (granular.map (toGranularRow team_name)).insertionSort
      (fun a b => granularSortKey a ≤ granularSortKey b)

/-- One row of the per-person summary table. -/
structure SummaryRow where
  team : String
  full_name : String
  email : String
  days_OT : ℚ
  days_BH : ℚ
  hours_OT : ℚ
  hours_BH : ℚ
deriving DecidableEq

/-- Sort key for groupby keys (team, full_name, email). -/
def personKeyLex (k : String × String × String) :
    Lex ((List Char) × Lex ((List Char) × (List Char))) :=
  toLex (k.1.data, toLex (k.2.1.data, k.2.2.data))

/-- `build_summary_table`: attach the team label, group by
(team, full_name, email) — pandas emits the groups in ascending key
order — and aggregate day counts and hour sums, then
`sort_values(["team", "full_name"])` (stable on the already ordered
keys). -/
def build_summary_table (l : List EnrichedShift) (team_name : String) :
    List SummaryRow :=
  let keys := (uniqueInOrder (l.map (fun s => (team_name, s.full_name, s.email)))).insertionSort
    (fun a b => personKeyLex a ≤ personKeyLex b)
  let rows := keys.map (fun k =>
    let g := l.filter (fun s => team_name = k.1 ∧ s.full_name = k.2.1 ∧ s.email = k.2.2)
    { team := k.1
      full_name := k.2.1
      email := k.2.2
      days_OT := ((g.countP (fun s => s.is_ot_day)) : ℚ)
      days_BH := ((g.countP (fun s => s.is_bank_holiday)) : ℚ)
      hours_OT := (g.map (fun s => s.ot_hours)).sum
      hours_BH := (g.map (fun s => s.bh_hours)).sum : SummaryRow })
  rows.insertionSort (fun a b =>
    toLex (a.team.data, a.full_name.data) ≤ toLex (b.team.data, b.full_name.data))

/-- One row of the pivot view.  `pivot_table` only creates the
`Overtime` / `Bank holiday` column pairs that occur as `day_type` values
in the granular table, and the final column selection keeps each of the
four renamed columns only if it exists; a field is `none` when its column
is absent from the pivot. -/
structure PivotRow where
  team : String
  full_name : String
  email : String
  days_OT : Option ℚ
  days_BH : Option ℚ
  hours_OT : Option ℚ
  hours_BH : Option ℚ
deriving DecidableEq

/-- `build_pivot_from_granular`: Excel-style pivot of the granular table —
index (team, full_name, email) in ascending order, `day_type` spread into
columns, `scheduled_hours` and `shift_days` summed with `fill_value=0`,
renamed to the summary column names.  An empty granular table is returned
as is. -/
def build_pivot_from_granular (granular : List GranularRow) : List PivotRow :=
  if granular = [] then []
  else
    let hasOT := granular.any (fun g => g.day_type == "Overtime")
    let hasBH := granular.any (fun g => g.day_type == "Bank holiday")
    let keys := (uniqueInOrder (granular.map (fun g => (g.team, g.full_name, g.email)))).insertionSort
      (fun a b => personKeyLex a ≤ personKeyLex b)
    keys.map (fun k =>
      let g := granular.filter
        (fun r => r.team = k.1 ∧ r.full_name = k.2.1 ∧ r.email = k.2.2)
      { team := k.1
        full_name := k.2.1
        email := k.2.2
        days_OT := if hasOT then
            some ((g.filter (fun r => r.day_type = "Overtime")).map
              (fun r => r.shift_days)).sum
          else none
        days_BH := if hasBH then
            some ((g.filter (fun r => r.day_type = "Bank holiday")).map
              (fun r => r.shift_days)).sum
          else none
        hours_OT := if hasOT then
            some ((g.filter (fun r => r.day_type = "Overtime")).map
              (fun r => r.scheduled_hours)).sum
          else none
        hours_BH := if hasBH then
            some ((g.filter (fun r => r.day_type = "Bank holiday")).map
              (fun r => r.scheduled_hours)).sum
          else none : PivotRow })

/-- One row of the team roll-up. -/
structure TeamRow where
  team : String
  total_ot_hours : ℚ
  total_bh_hours : ℚ
  people_with_ot : Nat
  people_with_bh : Nat
deriving DecidableEq

/-- `build_teams_with_ot`: group the summary by team, total the OT / BH
hours, count people with positive hours, and keep only teams with some OT
or BH.  An empty summary is returned as is. -/
def build_teams_with_ot (summary_table : List SummaryRow) : List TeamRow :=
  if summary_table = [] then []
  else
    let keys := (uniqueInOrder (summary_table.map (fun s => s.team))).insertionSort
      (fun a b => a.data ≤ b.data)
    let teams := keys.map (fun t =>
      let g := summary_table.filter (fun s => s.team = t)
      { team := t
        total_ot_hours := (g.map (fun s => s.hours_OT)).sum
        total_bh_hours := (g.map (fun s => s.hours_BH)).sum
        people_with_ot := g.countP (fun s => s.hours_OT > 0)
        people_with_bh := g.countP (fun s => s.hours_BH > 0) : TeamRow })
    teams.filter (fun r => r.total_ot_hours > 0 || r.total_bh_hours > 0)

/-- One row of the weekly debug view. -/
structure WeeklyRow where
  team : String
  full_name : String
  email : String
  week_start : Nat
  total_scheduled : ℚ
  total_ot : ℚ
  total_bh : ℚ
deriving DecidableEq

/-- Sort key for groupby keys (team, full_name, email, week_start). -/
def weeklyKeyLex (k : String × String × String × Nat) :
    Lex ((List Char) × Lex ((List Char) × Lex ((List Char) × Nat))) :=
  toLex (k.1.data, toLex (k.2.1.data, toLex (k.2.2.1.data, k.2.2.2)))

/-- `summarise_weekly_hours`: group by (team, full_name, email, week_start)
and sum scheduled, OT and BH hours; empty input is returned as is, and the
result is finally sorted by (team, full_name, week_start). -/
def summarise_weekly_hours (l : List EnrichedShift) (team_name : String) :
    List WeeklyRow :=
  if l = [] then []
  else
    let keys := (uniqueInOrder (l.map (fun s =>
      (team_name, s.full_name, s.email, s.week_start)))).insertionSort
      (fun a b => weeklyKeyLex a ≤ weeklyKeyLex b)
    let rows := keys.map (fun k =>
      let g := l.filter (fun s =>
        team_name = k.1 ∧ s.full_name = k.2.1 ∧ s.email = k.2.2.1 ∧ s.week_start = k.2.2.2)
      { team := k.1
        full_name := k.2.1
        email := k.2.2.1
        week_start := k.2.2.2
        total_scheduled := (g.map (fun s => s.scheduled_hours)).sum
        total_ot := (g.map (fun s => s.ot_hours)).sum
        total_bh := (g.map (fun s => s.bh_hours)).sum : WeeklyRow })
    rows.insertionSort (fun a b =>
      toLex (a.team.data, toLex (a.full_name.data, a.week_start)) ≤
        toLex (b.team.data, toLex (b.full_name.data, b.week_start)))

/-- The first day of the calendar month containing day `day`
(`dt.to_period("M").dt.to_timestamp()`).  Day 0 of the embedding is
Monday 2024-12-30, which lies 20087 days after 1970-01-01 and
`20087 + 719468` days after the Gregorian era base 0000-03-01; the
day-of-month offset comes from the standard civil-from-days conversion.
The result can precede day 0 (e.g. for December 2024), so it is an `Int`. -/
def month_start (day : Nat) : Int :=
  let zz : Nat := day + 20087 + 719468
  let doe : Nat := zz % 146097
  let yoe : Nat := (doe - doe / 1460 + doe / 36524 - doe / 146096) / 365
  let doy : Nat := doe - (365 * yoe + yoe / 4 - yoe / 100)
  let mp : Nat := (5 * doy + 2) / 153
  let dom : Nat := doy - (153 * mp + 2) / 5
  (zz : Int) - (dom : Int) - (719468 + 20087)

/-- One row of the monthly debug view. -/
structure MonthlyRow where
  team : String
  full_name : String
  email : String
  month : Int
  total_scheduled : ℚ
  total_ot : ℚ
  total_bh : ℚ
deriving DecidableEq

/-- Sort key for groupby keys (team, full_name, email, month). -/
def monthlyKeyLex (k : String × String × String × Int) :
    Lex ((List Char) × Lex ((List Char) × Lex ((List Char) × Int))) :=
  toLex (k.1.data, toLex (k.2.1.data, toLex (k.2.2.1.data, k.2.2.2)))

/-- `summarise_monthly_hours`: bucket each shift at the first day of its
month, group by (team, full_name, email, month) and sum scheduled, OT and
BH hours; empty input is returned as is, and the result is finally sorted
by (team, full_name, month). -/
def summarise_monthly_hours (l : List EnrichedShift) (team_name : String) :
    List MonthlyRow :=
  if l = [] then []
  else
    let keys := (uniqueInOrder (l.map (fun s =>
      (team_name, s.full_name, s.email, month_start s.shift_date)))).insertionSort
      (fun a b => monthlyKeyLex a ≤ monthlyKeyLex b)
    let rows := keys.map (fun k =>
      let g := l.filter (fun s =>
        team_name = k.1 ∧ s.full_name = k.2.1 ∧ s.email = k.2.2.1 ∧
          month_start s.shift_date = k.2.2.2)
      { team := k.1
        full_name := k.2.1
        email := k.2.2.1
        month := k.2.2.2
        total_scheduled := (g.map (fun s => s.scheduled_hours)).sum
        total_ot := (g.map (fun s => s.ot_hours)).sum
        total_bh := (g.map (fun s => s.bh_hours)).sum : MonthlyRow })
    rows.insertionSort (fun a b =>
      toLex (a.team.data, toLex (a.full_name.data, a.month)) ≤
        toLex (b.team.data, toLex (b.full_name.data, b.month)))

/-- Assigning `df[c] = ...` keeps an existing column in place and appends a
new one. -/
def addCol (cols : List String) (c : String) : List String :=
  if c ∈ cols then cols else cols ++ [c]

/-- The expected raw input columns (§6). -/
def rawColumns : List String :=
  ["shift_date", "first_name", "last_name", "email", "total_scheduled",
   "subtype", "surfer_timezone"]

/-- Column effect of `prepare_shifts`: each column assignment of the source
in order (the conditional `first_name` / `last_name` defaults coincide with
`addCol`, which is a no-op when the column is already present). -/
def prepare_shifts_columns (cols : List String) : List String :=
  ["shift_date", "day_name", "hours_worked", "scheduled_hours", "paid_hours",
   "first_name", "last_name", "full_name", "week_start", "shift_name",
   "is_kenya_employee", "is_bank_holiday"].foldl addCol cols

/-- Column effect of `flag_overtime_days`. -/
def flag_overtime_days_columns (cols : List String) : List String :=
  addCol cols "is_ot_day"

/-- Column effect of `add_shift_duration_and_flags`. -/
def add_shift_duration_and_flags_columns (cols : List String) : List String :=
  ["shift_days", "ot_hours", "bh_hours"].foldl addCol cols

/-- The columns of the fully enriched table produced from the expected raw
columns. -/
def enrichedColumns : List String :=
  add_shift_duration_and_flags_columns
    (flag_overtime_days_columns (prepare_shifts_columns rawColumns))

/-- Column effect of `build_granular_table`: an empty filter result is
returned with the input's columns untouched; otherwise the fixed
eight-column projection. -/
def build_granular_table_columns (cols : List String) (empty : Bool) : List String :=
  if empty then cols
  else ["team", "full_name", "email", "date", "day_type", "shift_name",
        "scheduled_hours", "shift_days"]

/-- Column effect of `build_summary_table` (no empty-input branch: the
groupby aggregation always yields these columns). -/
def build_summary_table_columns : List String :=
  ["team", "full_name", "email", "days_OT", "days_BH", "hours_OT", "hours_BH"]

/-- Column effect of `build_pivot_from_granular`: an empty granular table is
returned with its columns untouched; otherwise the key columns followed by
those of the four renamed columns whose `day_type` occurs in the data. -/
def build_pivot_from_granular_columns (cols : List String) (empty : Bool)
    (hasOT hasBH : Bool) : List String :=
  if empty then cols
  else ["team", "full_name", "email"] ++
    (if hasOT then ["days_OT"] else []) ++
    (if hasBH then ["days_BH"] else []) ++
    (if hasOT then ["hours_OT"] else []) ++
    (if hasBH then ["hours_BH"] else [])

/-- Column effect of `build_teams_with_ot`: an empty summary is returned
with its columns untouched. -/
def build_teams_with_ot_columns (cols : List String) (empty : Bool) : List String :=
  if empty then cols
  else ["team", "total_ot_hours", "total_bh_hours", "people_with_ot", "people_with_bh"]

/-- Column effect of `summarise_weekly_hours`: an empty input is returned
with its columns untouched. -/
def summarise_weekly_hours_columns (cols : List String) (empty : Bool) : List String :=
  if empty then cols
  else ["team", "full_name", "email", "week_start", "total_scheduled",
        "total_ot", "total_bh"]

/-- Column effect of `summarise_monthly_hours`: an empty input is returned
with its columns untouched. -/
def summarise_monthly_hours_columns (cols : List String) (empty : Bool) : List String :=
  if empty then cols
  else ["team", "full_name", "email", "month", "total_scheduled",
        "total_ot", "total_bh"]

/-- A hand-written enriched shift row used by the concrete checks: a shift
of `hrs` hours for person (`e`, `nm`) on day `d`, with derived fields
consistent with a 9-hour team shift. -/
def mkShift (d : Nat) (e nm : String) (hrs : ℚ) (ot bh : Bool) : EnrichedShift :=
  { shift_date := d
    day_name := DAY_NAMES.getD (d % 7) ""
    hours_worked := hrs
    scheduled_hours := hrs
    paid_hours := if hrs ≥ 9 then hrs - 1 else hrs
    full_name := nm
    email := e
    week_start := d - d % 7
    shift_name := ""
    is_kenya_employee := false
    is_bank_holiday := bh
    is_ot_day := ot
    shift_days := hrs / 9
    ot_hours := if ot then hrs else 0
    bh_hours := if bh then hrs else 0 }

/-- Three 9-hour shifts of one person on Mon/Tue/Wed of week 0. -/
def wShifts : List EnrichedShift :=
  [mkShift 2 "a@x" "A B" 9 false false, mkShift 3 "a@x" "A B" 9 false false,
   mkShift 4 "a@x" "A B" 9 false false]

/-- The same three shifts in reversed file order. -/
def wShiftsRev : List EnrichedShift :=
  [mkShift 4 "a@x" "A B" 9 false false, mkShift 3 "a@x" "A B" 9 false false,
   mkShift 2 "a@x" "A B" 9 false false]

/-- A well-formed raw row: 9 scheduled hours on New Year's Day 2025 (day 2)
for a Kenya-based employee. -/
def wRawRow : RawShiftRecord :=
  { shift_date := some 2, first_name := "A", last_name := "B", email := "a@x",
    total_scheduled := some 9, subtype := "Morning", surfer_timezone := "Africa/Nairobi" }

/-- A raw table holding just `wRawRow`, with every optional column present. -/
def wRawTable : RawTable :=
  { rows := [wRawRow], has_total_scheduled := true, has_first_name := true,
    has_last_name := true, has_subtype := true, has_surfer_timezone := true }

/-- The normalised form of `wRawTable`. -/
def wEnriched : List EnrichedShift := [enrich_row wRawTable true 9 (wRawRow, 2)]

/-- A one-person summary table with 9 overtime hours. -/
def wSummary : List SummaryRow :=
  [{ team := "Fraud Operations", full_name := "A B", email := "a@x",
     days_OT := 1, days_BH := 0, hours_OT := 9, hours_BH := 0 }]

/-- Two flagged overtime shifts of one person on the same date. -/
def wDoubleShift : List EnrichedShift :=
  [mkShift 3 "a@x" "A B" 9 true false, mkShift 3 "a@x" "A B" 9 true false]

/-- The summary row produced from `wDoubleShift`. -/
def wDoubleRow : SummaryRow :=
  { team := "Fraud Operations", full_name := "A B", email := "a@x",
    days_OT := 2, days_BH := 0, hours_OT := 18, hours_BH := 0 }

/-- A raw row whose `total_scheduled` parses to a negative number. -/
def negRow : RawShiftRecord :=
  { shift_date := some 2, first_name := "A", last_name := "B", email := "a@x",
    total_scheduled := some (-5), subtype := "", surfer_timezone := "" }

/-- A raw table holding just `negRow`. -/
def negTable : RawTable :=
  { rows := [negRow], has_total_scheduled := true, has_first_name := true,
    has_last_name := true, has_subtype := true, has_surfer_timezone := true }

/-- A raw row whose `total_scheduled` cell is unparseable text ("N/A"). -/
def naRow : RawShiftRecord :=
  { shift_date := some 2, first_name := "A", last_name := "B", email := "a@x",
    total_scheduled := none, subtype := "", surfer_timezone := "" }

/-- A raw table holding just `naRow`. -/
def naTable : RawTable :=
  { rows := [naRow], has_total_scheduled := true, has_first_name := true,
    has_last_name := true, has_subtype := true, has_surfer_timezone := true }

/-- A raw table with the expected columns and zero rows. -/
def emptyTable : RawTable :=
  { rows := [], has_total_scheduled := true, has_first_name := true,
    has_last_name := true, has_subtype := true, has_surfer_timezone := true }

/-- Two half-length (4.5 h) shifts of one person on consecutive days, put
through the classifier (contracted 1 day per week) and the deriver with a
9-hour team shift: the second date becomes overtime with shift_days 1/2. -/
def cexHalf : List EnrichedShift :=
  add_shift_duration_and_flags
    (flag_overtime_days
      [mkShift 2 "a@x" "A B" (9/2) false false,
       mkShift 3 "a@x" "A B" (9/2) false false] 1) 9

/-- Two full 9-hour shifts of one person on consecutive days, put through
the classifier (contracted 1 day per week) and the deriver. -/
def wAgree : List EnrichedShift :=
  add_shift_duration_and_flags
    (flag_overtime_days
      [mkShift 2 "a@x" "A B" 9 false false,
       mkShift 3 "a@x" "A B" 9 false false] 1) 9

/-- The pivot row produced from `wAgree`. -/
def pW : PivotRow :=
  { team := "Fraud Operations", full_name := "A B", email := "a@x",
    days_OT := some 1, days_BH := none, hours_OT := some 9, hours_BH := none }

/-- The summary row produced from `wAgree`. -/
def qW : SummaryRow :=
  { team := "Fraud Operations", full_name := "A B", email := "a@x",
    days_OT := 1, days_BH := 0, hours_OT := 9, hours_BH := 0 }

/-- The team roll-up row produced from `wSummary`. -/
def wTeamRow : TeamRow :=
  { team := "Fraud Operations", total_ot_hours := 9, total_bh_hours := 0,
    people_with_ot := 1, people_with_bh := 0 }

/-- The pivot row produced from `cexHalf`. -/
def pCexRow : PivotRow :=
  { team := "Fraud Operations", full_name := "A B", email := "a@x",
    days_OT := some (1/2), days_BH := none, hours_OT := some (9/2), hours_BH := none }

/-- The summary row produced from `cexHalf`. -/
def qCexRow : SummaryRow :=
  { team := "Fraud Operations", full_name := "A B", email := "a@x",
    days_OT := 1, days_BH := 0, hours_OT := 9/2, hours_BH := 0 }

/-- A raw row whose `shift_date` cell is unparseable. -/
def badRow : RawShiftRecord :=
  { shift_date := none, first_name := "A", last_name := "B", email := "a@x",
    total_scheduled := some 9, subtype := "", surfer_timezone := "" }

/-- A raw table holding just `badRow`. -/
def badTable : RawTable :=
  { rows := [badRow], has_total_scheduled := true, has_first_name := true,
    has_last_name := true, has_subtype := true, has_surfer_timezone := true }

theorem uniqueInOrder_mem {α : Type} [DecidableEq α] (l : List α) (x : α) :
    x ∈ uniqueInOrder l ↔ x ∈ l := by
  induction l with
  | nil => exact Iff.rfl
  | cons a t ih =>
    simp only [uniqueInOrder, List.mem_cons, List.mem_filter, ih, decide_eq_true_eq]
    by_cases hx : x = a
    · simp [hx]
    · simp [hx]

theorem uniqueInOrder_sublist {α : Type} [DecidableEq α] (l : List α) :
    List.Sublist (uniqueInOrder l) l := by
  induction l with
  | nil => simp [uniqueInOrder]
  | cons a t ih =>
    simp only [uniqueInOrder]
    exact List.Sublist.cons₂ a ((List.filter_sublist _).trans ih)

theorem uniqueInOrder_nodup {α : Type} [DecidableEq α] (l : List α) :
    (uniqueInOrder l).Nodup := by
  induction l with
  | nil => simp [uniqueInOrder]
  | cons a t ih =>
    simp only [uniqueInOrder]
    refine List.nodup_cons.2 ⟨fun hmem => ?_, ih.filter _⟩
    have := (List.mem_filter.1 hmem).2
    simp at this

theorem uniqueInOrder_filter_comm {α : Type} [DecidableEq α] (p : α → Bool) (l : List α) :
    (uniqueInOrder l).filter p = uniqueInOrder (l.filter p) := by
  induction l with
  | nil => rfl
  | cons a t ih =>
    by_cases hpa : p a = true
    · rw [List.filter_cons_of_pos hpa]
      simp only [uniqueInOrder]
      rw [List.filter_cons_of_pos hpa]
      congr 1
      rw [← ih, List.filter_filter, List.filter_filter]
      exact List.filter_congr (fun x _ => by rw [Bool.and_comm])
    · have hpa2 : p a = false := by
        cases hp : p a
        · rfl
        · exact absurd hp hpa
      rw [List.filter_cons_of_neg hpa]
      simp only [uniqueInOrder]
      rw [List.filter_cons_of_neg hpa, List.filter_filter, ← ih]
      refine List.filter_congr ?_
      intro x _
      by_cases hxa : x = a
      · rw [hxa, hpa2]
        rfl
      · simp [hxa]

/-- The pandas-unique recursion in its filter-first form. -/
theorem uniqueInOrder_cons_eq {α : Type} [DecidableEq α] (a : α) (l : List α) :
    uniqueInOrder (a :: l) = a :: uniqueInOrder (l.filter (fun x => x ≠ a)) := by
  simp only [uniqueInOrder]
  rw [uniqueInOrder_filter_comm]

theorem uniqueInOrder_pairwise {α : Type} [DecidableEq α] {r : α → α → Prop}
    {l : List α} (h : l.Pairwise r) : (uniqueInOrder l).Pairwise r :=
  h.sublist (uniqueInOrder_sublist l)

/-- Two lists of naturals without duplicates, both weakly sorted and with
the same members, are equal. -/
theorem sorted_nodup_nat_eq (l₁ l₂ : List Nat) (h₁ : l₁.Nodup) (h₂ : l₂.Nodup)
    (s₁ : l₁.Sorted (· ≤ ·)) (s₂ : l₂.Sorted (· ≤ ·))
    (h : ∀ x, x ∈ l₁ ↔ x ∈ l₂) : l₁ = l₂ :=
  List.eq_of_perm_of_sorted ((List.perm_ext_iff_of_nodup h₁ h₂).2 h) s₁ s₂

theorem contains_iff_mem_nat (l : List Nat) (x : Nat) :
    l.contains x = true ↔ x ∈ l := by
  simp [List.elem_iff]

/-- Splitting a list into its groups under a key function and concatenating
the groups back (what `groupby(...).apply` with `group_keys=False` does)
permutes the list. -/
theorem flatMap_groups_perm {α κ : Type} [DecidableEq κ] (key : α → κ) :
    ∀ (n : Nat) (s : List α), s.length ≤ n →
      List.Perm
        ((uniqueInOrder (s.map key)).flatMap (fun k => s.filter (fun x => key x = k))) s := by
  intro n
  induction n with
  | zero =>
    intro s hs
    rw [List.length_eq_zero.1 (Nat.le_zero.1 hs)]
    simp [uniqueInOrder]
  | succ n ih =>
    intro s hs
    match s with
    | [] => simp [uniqueInOrder]
    | a :: t =>
      have hfm : (t.map key).filter (fun x => decide (x ≠ key a))
          = (t.filter (fun x => decide (key x ≠ key a))).map key := by
        rw [List.filter_map]
        rfl
      have huio : uniqueInOrder ((a :: t).map key)
          = key a :: uniqueInOrder ((t.filter (fun x => decide (key x ≠ key a))).map key) := by
        rw [List.map_cons, uniqueInOrder_cons_eq, hfm]
      set t' := t.filter (fun x => decide (key x ≠ key a)) with ht'
      have hlen : t'.length ≤ n := by
        have h1 : t'.length ≤ t.length := List.length_filter_le _ _
        have h2 : t.length ≤ n := by
          simpa [Nat.succ_le_succ_iff] using hs
        exact le_trans h1 h2
      have hcongr : ∀ k ∈ uniqueInOrder (t'.map key),
          ((a :: t).filter (fun x => key x = k)) = t'.filter (fun x => key x = k) := by
        intro k hk
        have hk2 : k ∈ t'.map key := (uniqueInOrder_mem _ _).1 hk
        obtain ⟨x, hx, rfl⟩ := List.mem_map.1 hk2
        have hxne : key x ≠ key a := by
          have := (List.mem_filter.1 hx).2
          simpa using this
        have hhead : ((a :: t).filter (fun y => key y = key x))
            = t.filter (fun y => key y = key x) := by
          refine List.filter_cons_of_neg ?_
          simpa using Ne.symm hxne
        rw [hhead, ht']
        rw [List.filter_filter]
        refine (List.filter_congr ?_).symm
        intro y hy
        by_cases h : key y = key x
        · simp [h, hxne]
        · simp [h]
      have hflat : ((uniqueInOrder ((a :: t).map key)).flatMap
            (fun k => (a :: t).filter (fun x => key x = k)))
          = ((a :: t).filter (fun x => key x = key a))
            ++ ((uniqueInOrder (t'.map key)).flatMap
                  (fun k => t'.filter (fun x => key x = k))) := by
        rw [huio]
        rw [List.flatMap_cons]
        congr 1
        exact List.flatMap_congr hcongr
      rw [hflat]
      have hheadeq : ((a :: t).filter (fun x => key x = key a))
          = a :: t.filter (fun x => key x = key a) :=
        List.filter_cons_of_pos (by simp)
      rw [hheadeq]
      have hrest : List.Perm ((uniqueInOrder (t'.map key)).flatMap
          (fun k => t'.filter (fun x => key x = k))) t' := ih t' hlen
      refine List.Perm.trans (List.Perm.cons a (List.Perm.append_left _ hrest)) ?_
      refine List.Perm.cons a ?_
      have : t' = t.filter (fun x => !(decide (key x = key a))) := by
        rw [ht']
        refine List.filter_congr ?_
        intro y _
        simp
      rw [this]
      exact List.filter_append_perm _ t

/-- The ascending list of distinct calendar dates worked by `e` in the week
bucket `w` of table `l`: the quantity §4.3 of the spec classifies by. -/
def groupDates (l : List EnrichedShift) (e : String) (w : Nat) : List Nat :=
  (uniqueInOrder ((l.filter (fun r => r.email = e ∧ r.week_start = w)).map
    (fun r => r.shift_date))).insertionSort (· ≤ ·)

/-- The overtime flag §4.3 dictates for a shift of person `e`, week bucket
`w`, date `d`: whether `d` sits at index `c` or beyond in the ascending
distinct dates of the group. -/
def ot_flag (l : List EnrichedShift) (c : Nat) (e : String) (w : Nat) (d : Nat) : Bool :=
  ((groupDates l e w).drop c).contains d

theorem groupDates_sorted (l : List EnrichedShift) (e : String) (w : Nat) :
    (groupDates l e w).Sorted (· ≤ ·) :=
  List.sorted_insertionSort _ _

theorem groupDates_nodup (l : List EnrichedShift) (e : String) (w : Nat) :
    (groupDates l e w).Nodup :=
  (List.perm_insertionSort _ _).nodup_iff.2 (uniqueInOrder_nodup _)

theorem groupDates_mem (l : List EnrichedShift) (e : String) (w : Nat) (x : Nat) :
    x ∈ groupDates l e w ↔ ∃ r ∈ l, r.email = e ∧ r.week_start = w ∧ r.shift_date = x := by
  unfold groupDates
  rw [List.mem_insertionSort, uniqueInOrder_mem]
  simp only [List.mem_map, List.mem_filter, decide_eq_true_eq]
  tauto

theorem ot_update_eta (r : EnrichedShift) : { r with is_ot_day := r.is_ot_day } = r := by
  cases r
  rfl

theorem mark_group_eq (c : Nat) (g : List EnrichedShift)
    (hg : ∀ r ∈ g, r.is_ot_day = false) :
    mark_group c g = g.map (fun r =>
      { r with is_ot_day :=
          ((uniqueInOrder (g.map (fun s => s.shift_date))).drop c).contains r.shift_date }) := by
  simp only [mark_group]
  by_cases h : (uniqueInOrder (g.map (fun s => s.shift_date))).length ≤ c
  · rw [if_pos h, List.drop_eq_nil_of_le h]
    have hid : ∀ r ∈ g,
        ({ r with is_ot_day := (([] : List Nat)).contains r.shift_date }) = id r := by
      intro r hr
      have hfalse : (([] : List Nat)).contains r.shift_date = false := rfl
      rw [hfalse, ← hg r hr]
      exact ot_update_eta r
    rw [List.map_congr_left hid, List.map_id]
  · rw [if_neg h]

theorem flatMap_map_comm {α β γ : Type} (l : List α) (G : α → List β) (F : β → γ) :
    (l.flatMap (fun k => (G k).map F)) = (l.flatMap G).map F := by
  induction l with
  | nil => rfl
  | cons a t ih => simp [List.flatMap_cons, ih]

/-- Master description of `flag_overtime_days`: up to row order, it maps
every input shift to the same shift with `is_ot_day` set according to the
ascending distinct dates of its (email, week_start) group. -/
theorem flag_overtime_days_perm (l : List EnrichedShift) (c : Nat) :
    List.Perm (flag_overtime_days l c)
      (l.map (fun r =>
        { r with is_ot_day := ot_flag l c r.email r.week_start r.shift_date })) := by
  simp only [flag_overtime_days]
  set s := (l.insertionSort shiftLe).map (fun r => { r with is_ot_day := false }) with hs
  have hsperm : List.Perm s (l.map (fun r => { r with is_ot_day := false })) :=
    (List.perm_insertionSort shiftLe l).map _
  have hmem_s : ∀ r ∈ s, r.is_ot_day = false := by
    rw [hs]
    intro r hr
    obtain ⟨r₀, _, rfl⟩ := List.mem_map.1 hr
    rfl
  have hsorted : s.Pairwise shiftLe := by
    rw [hs, List.pairwise_map]
    refine (List.sorted_insertionSort shiftLe l).imp ?_
    intro a b hab
    exact hab
  have hgroups : ∀ k ∈ uniqueInOrder (s.map groupKey),
      mark_group c (s.filter (fun r => groupKey r = k))
        = (s.filter (fun r => groupKey r = k)).map
            (fun r => { r with is_ot_day := ot_flag l c r.email r.week_start r.shift_date }) := by
    intro k hk
    obtain ⟨ke, kw⟩ := k
    set g := s.filter (fun r => groupKey r = (ke, kw)) with hgdef
    have hgflag : ∀ r ∈ g, r.is_ot_day = false := fun r hr =>
      hmem_s r (List.mem_of_mem_filter hr)
    have hgkey : ∀ r ∈ g, r.email = ke ∧ r.week_start = kw := by
      intro r hr
      have h2 := (List.mem_filter.1 hr).2
      simp only [decide_eq_true_eq, groupKey, Prod.mk.injEq] at h2
      exact h2
    have hgsorted : g.Pairwise shiftLe := hsorted.sublist (List.filter_sublist s)
    have hdates : (g.map (fun r => r.shift_date)).Pairwise (fun a b => a ≤ b) := by
      rw [List.pairwise_map]
      refine List.Pairwise.imp_of_mem ?_ hgsorted
      intro a b ha hb hab
      obtain ⟨hae, haw⟩ := hgkey a ha
      obtain ⟨hbe, hbw⟩ := hgkey b hb
      have hkey : shiftSortKey a ≤ shiftSortKey b := hab
      rw [shiftSortKey, shiftSortKey, Prod.Lex.le_iff] at hkey
      rcases hkey with h1 | ⟨h1, h2⟩
      · exfalso
        rw [hae, hbe] at h1
        exact lt_irrefl _ h1
      · rw [Prod.Lex.le_iff] at h2
        rcases h2 with h2 | ⟨h2, h3⟩
        · exfalso
          rw [haw, hbw] at h2
          exact lt_irrefl _ h2
        · exact h3
    have hueq : uniqueInOrder (g.map (fun s => s.shift_date)) = groupDates l ke kw := by
      refine sorted_nodup_nat_eq _ _ (uniqueInOrder_nodup _) (groupDates_nodup l ke kw)
        (uniqueInOrder_pairwise hdates) (groupDates_sorted l ke kw) ?_
      intro x
      rw [uniqueInOrder_mem, groupDates_mem]
      constructor
      · intro hx
        obtain ⟨r, hr, rfl⟩ := List.mem_map.1 hx
        have hrs : r ∈ s := List.mem_of_mem_filter hr
        obtain ⟨hre, hrw⟩ := hgkey r hr
        have hrl : r ∈ l.map (fun r => { r with is_ot_day := false }) := hsperm.mem_iff.1 hrs
        obtain ⟨r₀, hr₀, rfl⟩ := List.mem_map.1 hrl
        exact ⟨r₀, hr₀, hre, hrw, rfl⟩
      · rintro ⟨r₀, hr₀, hre, hrw, rfl⟩
        refine List.mem_map.2 ⟨{ r₀ with is_ot_day := false }, ?_, rfl⟩
        refine List.mem_filter.2 ⟨?_, ?_⟩
        · exact hsperm.mem_iff.2 (List.mem_map.2 ⟨r₀, hr₀, rfl⟩)
        · simp only [groupKey, decide_eq_true_eq, Prod.mk.injEq]
          exact ⟨hre, hrw⟩
    rw [mark_group_eq c g hgflag, hueq]
    refine List.map_congr_left ?_
    intro r hr
    obtain ⟨hre, hrw⟩ := hgkey r hr
    rw [ot_flag, hre, hrw]
  rw [List.flatMap_congr hgroups, flatMap_map_comm]
  refine List.Perm.trans
    (List.Perm.map _ (flatMap_groups_perm groupKey s.length s le_rfl)) ?_
  rw [hs, List.map_map]
  have hcomp : ((fun r : EnrichedShift =>
        { r with is_ot_day := ot_flag l c r.email r.week_start r.shift_date })
      ∘ (fun r : EnrichedShift => { r with is_ot_day := false }))
      = (fun r : EnrichedShift =>
        { r with is_ot_day := ot_flag l c r.email r.week_start r.shift_date }) := by
    funext r
    rfl
  rw [hcomp]
  exact (List.perm_insertionSort shiftLe l).map _

/-- In the output of `flag_overtime_days` every row carries exactly the
flag dictated by its group's ascending distinct dates. -/
theorem flag_mem_spec (l : List EnrichedShift) (c : Nat) (r : EnrichedShift)
    (hr : r ∈ flag_overtime_days l c) :
    r.is_ot_day = ot_flag l c r.email r.week_start r.shift_date := by
  have hmem := (flag_overtime_days_perm l c).mem_iff.1 hr
  obtain ⟨r₀, hr₀, rfl⟩ := List.mem_map.1 hmem
  rfl

theorem parse_dates_sound (rs : List RawShiftRecord) (ps : List (RawShiftRecord × Nat))
    (h : parse_dates rs = Except.ok ps) :
    ps.map Prod.fst = rs ∧ ∀ p ∈ ps, p.1.shift_date = some p.2 := by
  induction rs generalizing ps with
  | nil =>
    simp only [parse_dates] at h
    cases h
    simp
  | cons r rs ih =>
    simp only [parse_dates] at h
    match hd : r.shift_date with
    | none =>
      rw [hd] at h
      cases h
    | some d =>
      rw [hd] at h
      match hps : parse_dates rs with
      | Except.error e =>
        rw [hps] at h
        cases h
      | Except.ok qs =>
        rw [hps] at h
        cases h
        obtain ⟨h1, h2⟩ := ih qs hps
        constructor
        · simp [h1]
        · intro p hp
          rcases List.mem_cons.1 hp with rfl | hp2
          · exact hd
          · exact h2 p hp2

theorem parse_dates_ok_of (rs : List RawShiftRecord)
    (h : ∀ r ∈ rs, r.shift_date ≠ none) :
    ∃ ps, parse_dates rs = Except.ok ps := by
  induction rs with
  | nil => exact ⟨[], rfl⟩
  | cons r rs ih =>
    have hr := h r (List.mem_cons_self r rs)
    match hd : r.shift_date with
    | none => exact absurd hd hr
    | some d =>
      obtain ⟨ps, hps⟩ := ih (fun x hx => h x (List.mem_cons_of_mem r hx))
      refine ⟨(r, d) :: ps, ?_⟩
      simp only [parse_dates, hd, hps]

theorem parse_dates_error_of (rs : List RawShiftRecord) (r : RawShiftRecord)
    (hr : r ∈ rs) (hd : r.shift_date = none) :
    ∃ e, parse_dates rs = Except.error e := by
  induction rs with
  | nil => cases hr
  | cons a rs ih =>
    rcases List.mem_cons.1 hr with rfl | hmem
    · refine ⟨"Unable to parse shift_date", ?_⟩
      simp only [parse_dates, hd]
    · match ha : a.shift_date with
      | none =>
        refine ⟨"Unable to parse shift_date", ?_⟩
        simp only [parse_dates, ha]
      | some d =>
        obtain ⟨e, he⟩ := ih hmem
        exact ⟨e, by simp only [parse_dates, ha, he]⟩

theorem prepare_shifts_ok_elim (t : RawTable) (en : Bool) (sh : ℚ)
    (out : List EnrichedShift) (h : prepare_shifts t en sh = Except.ok out) :
    ∃ ps, parse_dates t.rows = Except.ok ps ∧ out = ps.map (enrich_row t en sh) := by
  unfold prepare_shifts at h
  match hps : parse_dates t.rows with
  | Except.error e =>
    rw [hps] at h
    cases h
  | Except.ok ps =>
    rw [hps] at h
    cases h
    exact ⟨ps, rfl, rfl⟩

theorem prepare_shifts_mem (t : RawTable) (en : Bool) (sh : ℚ)
    (out : List EnrichedShift) (h : prepare_shifts t en sh = Except.ok out) :
    ∀ r ∈ out, ∃ r₀ d, r₀ ∈ t.rows ∧ r₀.shift_date = some d ∧
      r = enrich_row t en sh (r₀, d) := by
  obtain ⟨ps, hps, rfl⟩ := prepare_shifts_ok_elim t en sh _ h
  obtain ⟨hmap, hdates⟩ := parse_dates_sound _ _ hps
  intro r hr
  obtain ⟨p, hp, rfl⟩ := List.mem_map.1 hr
  refine ⟨p.1, p.2, ?_, hdates p hp, by cases p; rfl⟩
  rw [← hmap]
  exact List.mem_map.2 ⟨p, hp, rfl⟩

theorem prepare_shifts_length (t : RawTable) (en : Bool) (sh : ℚ)
    (out : List EnrichedShift) (h : prepare_shifts t en sh = Except.ok out) :
    out.length = t.rows.length := by
  obtain ⟨ps, hps, rfl⟩ := prepare_shifts_ok_elim t en sh _ h
  obtain ⟨hmap, _⟩ := parse_dates_sound _ _ hps
  rw [List.length_map, ← hmap, List.length_map]

theorem prepare_shifts_getElem (t : RawTable) (en : Bool) (sh : ℚ)
    (out : List EnrichedShift) (h : prepare_shifts t en sh = Except.ok out)
    (i : Nat) (r₀ : RawShiftRecord) (r : EnrichedShift)
    (h₀ : t.rows[i]? = some r₀) (h₁ : out[i]? = some r) :
    ∃ d, r₀.shift_date = some d ∧ r = enrich_row t en sh (r₀, d) := by
  obtain ⟨ps, hps, rfl⟩ := prepare_shifts_ok_elim t en sh _ h
  obtain ⟨hmap, hdates⟩ := parse_dates_sound _ _ hps
  rw [← hmap] at h₀
  rw [List.getElem?_map] at h₀ h₁
  match hpi : ps[i]? with
  | none =>
    rw [hpi] at h₀
    cases h₀
  | some p =>
    rw [hpi] at h₀ h₁
    have hp : p ∈ ps := by
      have := List.getElem?_mem hpi
      exact this
    cases h₀
    cases h₁
    exact ⟨p.2, hdates p hp, by cases p; rfl⟩

/-- On a duplicate-free list, keeping the elements that lie in its `drop`
part yields exactly the `drop` part. -/
theorem filter_contains_drop (L : List Nat) (c : Nat) (hnd : L.Nodup) :
    L.filter (fun d => (L.drop c).contains d) = L.drop c := by
  have hsplit : L = L.take c ++ L.drop c := (List.take_append_drop c L).symm
  have hnodup : (L.take c ++ L.drop c).Nodup := by
    rw [← hsplit]
    exact hnd
  rw [List.nodup_append] at hnodup
  obtain ⟨h1, h2, hdisj⟩ := hnodup
  have htake : (L.take c).filter (fun d => (L.drop c).contains d) = [] := by
    refine List.filter_eq_nil_iff.2 ?_
    intro a ha hc
    exact hdisj ha ((contains_iff_mem_nat _ _).1 (by simpa using hc))
  have hdrop : (L.drop c).filter (fun d => (L.drop c).contains d) = L.drop c := by
    refine List.filter_eq_self.2 ?_
    intro a ha
    exact (contains_iff_mem_nat _ _).2 ha
  calc L.filter (fun d => (L.drop c).contains d)
      = (L.take c ++ L.drop c).filter (fun d => (L.drop c).contains d) := by rw [← hsplit]
    _ = (L.take c).filter (fun d => (L.drop c).contains d)
          ++ (L.drop c).filter (fun d => (L.drop c).contains d) := List.filter_append _ _
    _ = [] ++ L.drop c := by rw [htake, hdrop]
    _ = L.drop c := List.nil_append _

/-- When every row's week bucket is the Monday of its own date, a weekly
group holds at most 7 distinct dates. -/
theorem groupDates_length_le_seven (l : List EnrichedShift) (e : String) (w : Nat)
    (hw : ∀ r ∈ l, r.week_start = r.shift_date - r.shift_date % 7) :
    (groupDates l e w).length ≤ 7 := by
  have hnd := groupDates_nodup l e w
  have hsub : ∀ x ∈ groupDates l e w, x ∈ Finset.Icc w (w + 6) := by
    intro x hx
    obtain ⟨r, hr, _, hrw, rfl⟩ := (groupDates_mem l e w x).1 hx
    have hwr := hw r hr
    rw [hrw] at hwr
    rw [Finset.mem_Icc]
    omega
  calc (groupDates l e w).length
      = (groupDates l e w).toFinset.card := (List.toFinset_card_of_nodup hnd).symm
    _ ≤ (Finset.Icc w (w + 6)).card :=
        Finset.card_le_card (fun x hx => hsub x (List.mem_toFinset.1 hx))
    _ = 7 := by rw [Nat.card_Icc]; omega

theorem groupDates_perm_invariant (l l' : List EnrichedShift) (h : List.Perm l l')
    (e : String) (w : Nat) : groupDates l e w = groupDates l' e w := by
  refine sorted_nodup_nat_eq _ _ (groupDates_nodup l e w) (groupDates_nodup l' e w)
    (groupDates_sorted l e w) (groupDates_sorted l' e w) ?_
  intro x
  rw [groupDates_mem, groupDates_mem]
  constructor
  · rintro ⟨r, hr, hrest⟩
    exact ⟨r, h.mem_iff.1 hr, hrest⟩
  · rintro ⟨r, hr, hrest⟩
    exact ⟨r, h.mem_iff.2 hr, hrest⟩

theorem enrich_row_paid (t : RawTable) (en : Bool) (sh : ℚ) (p : RawShiftRecord × Nat) :
    (enrich_row t en sh p).paid_hours =
      (if (enrich_row t en sh p).scheduled_hours ≥ sh
        then (enrich_row t en sh p).scheduled_hours - 1
        else (enrich_row t en sh p).scheduled_hours) := rfl

theorem enrich_row_bh (t : RawTable) (en : Bool) (sh : ℚ) (p : RawShiftRecord × Nat) :
    (enrich_row t en sh p).is_bank_holiday
      = (en && (enrich_row t en sh p).is_kenya_employee
          && KENYA_BANK_HOLIDAYS_2025.contains (enrich_row t en sh p).shift_date) := by
  cases en <;> rfl

theorem enrich_row_kenyan (t : RawTable) (en : Bool) (sh : ℚ) (p : RawShiftRecord × Nat) :
    (enrich_row t en sh p).is_kenya_employee
      = (t.has_surfer_timezone && (p.1.surfer_timezone == KENYA_TZ)) := by
  cases htz : t.has_surfer_timezone <;> simp [enrich_row, htz]

/-- **C2.** Within every (email, week_start) group the classifier flags
`is_ot_day` exactly on the shifts whose date lies at ascending index
`contracted_days_per_week` or beyond among the group's distinct worked
dates; the distinct flagged dates number `distinct − contracted` (natural
subtraction, so `max 0 (distinct − contracted)`), which is 0 whenever
distinct ≤ contracted — in particular for every contracted > 7, since a
week bucket holds at most 7 distinct dates — and is every worked date of
the group when contracted = 0. -/
theorem overtime_classifier_spec (l : List EnrichedShift) (c : Nat)
    (hw : ∀ r ∈ l, r.week_start = r.shift_date - r.shift_date % 7) :
    (∀ r ∈ flag_overtime_days l c,
        (r.is_ot_day = true ↔ r.shift_date ∈ (groupDates l r.email r.week_start).drop c))
    ∧ (∀ e w, ((groupDates l e w).filter (fun d => ot_flag l c e w d)).length
        = (groupDates l e w).length - c)
    ∧ (∀ e w, (groupDates l e w).length ≤ c →
        ((groupDates l e w).filter (fun d => ot_flag l c e w d)).length = 0)
    ∧ (7 < c → ∀ r ∈ flag_overtime_days l c, r.is_ot_day = false)
    ∧ (c = 0 → ∀ e w,
        (groupDates l e w).filter (fun d => ot_flag l c e w d) = groupDates l e w) := by
  have hcount : ∀ e w, (groupDates l e w).filter (fun d => ot_flag l c e w d)
      = (groupDates l e w).drop c := fun e w =>
    filter_contains_drop _ c (groupDates_nodup l e w)
  refine ⟨?_, ?_, ?_, ?_, ?_⟩
  · intro r hr
    rw [flag_mem_spec l c r hr, ot_flag]
    exact contains_iff_mem_nat _ _
  · intro e w
    rw [hcount e w, List.length_drop]
  · intro e w hle
    rw [hcount e w, List.length_drop]
    omega
  · intro hc r hr
    rw [flag_mem_spec l c r hr, ot_flag]
    have h7 : (groupDates l r.email r.week_start).length ≤ 7 :=
      groupDates_length_le_seven l _ _ hw
    rw [List.drop_eq_nil_of_le (by omega)]
    rfl
  · intro hc e w
    subst hc
    rw [hcount e w, List.drop_zero]

theorem overtime_classifier_spec_witness :
    ((groupDates wShifts "a@x" 0).filter (fun d => ot_flag wShifts 1 "a@x" 0 d)).length
      = (groupDates wShifts "a@x" 0).length - 1 :=
  (overtime_classifier_spec wShifts 1 (by decide)).2.1 "a@x" 0

/-- **C3.** For every normalised shift, paid hours never exceed scheduled
hours, equal scheduled − 1 exactly when scheduled ≥ the team shift length,
and equal scheduled otherwise. -/
theorem paid_hours_spec (t : RawTable) (en : Bool) (sh : ℚ)
    (out : List EnrichedShift) (h : prepare_shifts t en sh = Except.ok out) :
    ∀ r ∈ out, r.paid_hours ≤ r.scheduled_hours
      ∧ (r.paid_hours = r.scheduled_hours - 1 ↔ r.scheduled_hours ≥ sh)
      ∧ (¬ (r.scheduled_hours ≥ sh) → r.paid_hours = r.scheduled_hours) := by
  intro r hr
  obtain ⟨r₀, d, _, _, rfl⟩ := prepare_shifts_mem t en sh out h r hr
  rw [enrich_row_paid]
  by_cases hge : (enrich_row t en sh (r₀, d)).scheduled_hours ≥ sh
  · rw [if_pos hge]
    exact ⟨by linarith, ⟨fun _ => hge, fun _ => rfl⟩, fun hn => absurd hge hn⟩
  · rw [if_neg hge]
    refine ⟨le_refl _, ⟨?_, fun hge2 => absurd hge2 hge⟩, fun _ => rfl⟩
    intro heq
    exfalso
    linarith

theorem paid_hours_spec_witness :
    (enrich_row wRawTable true 9 (wRawRow, 2)).paid_hours
        ≤ (enrich_row wRawTable true 9 (wRawRow, 2)).scheduled_hours
      ∧ ((enrich_row wRawTable true 9 (wRawRow, 2)).paid_hours
          = (enrich_row wRawTable true 9 (wRawRow, 2)).scheduled_hours - 1
        ↔ (enrich_row wRawTable true 9 (wRawRow, 2)).scheduled_hours ≥ 9)
      ∧ (¬ ((enrich_row wRawTable true 9 (wRawRow, 2)).scheduled_hours ≥ 9) →
          (enrich_row wRawTable true 9 (wRawRow, 2)).paid_hours
            = (enrich_row wRawTable true 9 (wRawRow, 2)).scheduled_hours) :=
  paid_hours_spec wRawTable true 9 wEnriched rfl
    (enrich_row wRawTable true 9 (wRawRow, 2)) (List.mem_singleton.2 rfl)

/-- **C5.** The normaliser raises an error — rather than dropping the row
or continuing — whenever some record's `shift_date` does not parse, and
when every date parses it succeeds over all rows: a run either completes
over the whole input or fails as a whole. -/
theorem prepare_shifts_all_or_nothing (t : RawTable) (en : Bool) (sh : ℚ) :
    ((∃ r ∈ t.rows, r.shift_date = none) →
        ∃ e, prepare_shifts t en sh = Except.error e)
    ∧ ((∀ r ∈ t.rows, r.shift_date ≠ none) →
        ∃ out, prepare_shifts t en sh = Except.ok out
          ∧ out.length = t.rows.length) := by
  constructor
  · rintro ⟨r, hr, hnone⟩
    obtain ⟨e, he⟩ := parse_dates_error_of t.rows r hr hnone
    refine ⟨e, ?_⟩
    unfold prepare_shifts
    rw [he]
  · intro h
    obtain ⟨ps, hps⟩ := parse_dates_ok_of t.rows h
    refine ⟨ps.map (enrich_row t en sh), ?_, ?_⟩
    · unfold prepare_shifts
      rw [hps]
    · obtain ⟨hmap, _⟩ := parse_dates_sound _ _ hps
      rw [List.length_map, ← hmap, List.length_map]

theorem prepare_shifts_all_or_nothing_witness :
    ∃ e, prepare_shifts badTable true 9 = Except.error e :=
  (prepare_shifts_all_or_nothing badTable true 9).1
    ⟨badRow, List.mem_cons_self badRow [], rfl⟩

/-- **C7.** The team roll-up never keeps a team whose OT and BH hour
totals are both zero. -/
theorem teams_with_ot_nonzero (s : List SummaryRow) (r : TeamRow)
    (hr : r ∈ build_teams_with_ot s) :
    ¬ (r.total_ot_hours = 0 ∧ r.total_bh_hours = 0) := by
  rintro ⟨h1, h2⟩
  unfold build_teams_with_ot at hr
  by_cases hs : s = []
  · rw [if_pos hs] at hr
    cases hr
  · rw [if_neg hs] at hr
    have hmem := (List.mem_filter.1 hr).2
    rw [h1, h2] at hmem
    simp at hmem

theorem teams_with_ot_nonzero_witness :
    ¬ (wTeamRow.total_ot_hours = 0 ∧ wTeamRow.total_bh_hours = 0) :=
  teams_with_ot_nonzero wSummary wTeamRow (by with_unfolding_all decide)

/-- **C8.** `is_bank_holiday` holds exactly when holiday rules are enabled,
the row is region-eligible, and the date is in the holiday calendar; with
rules disabled it is always false; region eligibility is precisely that
the row's recorded `surfer_timezone` equals the configured region. -/
theorem bank_holiday_spec (t : RawTable) (en : Bool) (sh : ℚ)
    (out : List EnrichedShift) (h : prepare_shifts t en sh = Except.ok out) :
    (∀ r ∈ out,
        r.is_bank_holiday
          = (en && r.is_kenya_employee && KENYA_BANK_HOLIDAYS_2025.contains r.shift_date)
      ∧ (en = false → r.is_bank_holiday = false))
    ∧ ∀ (i : Nat) (r₀ : RawShiftRecord) (r : EnrichedShift),
        t.rows[i]? = some r₀ → out[i]? = some r →
        r.is_kenya_employee = (t.has_surfer_timezone && (r₀.surfer_timezone == KENYA_TZ)) := by
  constructor
  · intro r hr
    obtain ⟨r₀, d, _, _, rfl⟩ := prepare_shifts_mem t en sh out h r hr
    refine ⟨enrich_row_bh t en sh (r₀, d), ?_⟩
    intro hen
    rw [enrich_row_bh t en sh (r₀, d), hen]
    rfl
  · intro i r₀ r h₀ h₁
    obtain ⟨d, _, rfl⟩ := prepare_shifts_getElem t en sh out h i r₀ r h₀ h₁
    exact enrich_row_kenyan t en sh (r₀, d)

theorem bank_holiday_spec_witness :
    (enrich_row wRawTable true 9 (wRawRow, 2)).is_bank_holiday
      = (true && (enrich_row wRawTable true 9 (wRawRow, 2)).is_kenya_employee
          && KENYA_BANK_HOLIDAYS_2025.contains
              (enrich_row wRawTable true 9 (wRawRow, 2)).shift_date) :=
  (((bank_holiday_spec wRawTable true 9 wEnriched rfl).1
    (enrich_row wRawTable true 9 (wRawRow, 2)) (List.mem_singleton.2 rfl))).1

/-- **C4 (amended).** After normalisation, a missing or non-numeric
`total_scheduled` cell (pandas NaN, e.g. the literal text "N/A")
normalises to `scheduled_hours = 0.0` and raises no error; and
`scheduled_hours` is non-negative whenever every parseable
`total_scheduled` value in the input is non-negative. -/
theorem scheduled_hours_amended (t : RawTable) (en : Bool) (sh : ℚ)
    (out : List EnrichedShift) (h : prepare_shifts t en sh = Except.ok out) :
    (∀ (i : Nat) (r₀ : RawShiftRecord) (r : EnrichedShift),
        t.rows[i]? = some r₀ → out[i]? = some r →
        r₀.total_scheduled = none → r.scheduled_hours = 0)
    ∧ ((∀ r ∈ t.rows, ∀ q, r.total_scheduled = some q → 0 ≤ q) →
        ∀ r ∈ out, 0 ≤ r.scheduled_hours) := by
  constructor
  · intro i r₀ r h₀ h₁ hnone
    obtain ⟨d, _, rfl⟩ := prepare_shifts_getElem t en sh out h i r₀ r h₀ h₁
    show (if t.has_total_scheduled then r₀.total_scheduled.getD 0 else 0) = 0
    rw [hnone]
    cases t.has_total_scheduled <;> rfl
  · intro hpos r hr
    obtain ⟨r₀, d, hr₀, _, rfl⟩ := prepare_shifts_mem t en sh out h r hr
    show (0:ℚ) ≤ (if t.has_total_scheduled then r₀.total_scheduled.getD 0 else 0)
    cases htc : t.has_total_scheduled
    · simp
    · match hts : r₀.total_scheduled with
      | none => simp [hts]
      | some q =>
        simp only [hts, Option.getD_some, if_true]
        exact hpos r₀ hr₀ q hts

theorem scheduled_hours_amended_witness :
    ((enrich_row naTable true 9 (naRow, 2)).scheduled_hours = 0)
    ∧ (0 ≤ (enrich_row naTable true 9 (naRow, 2)).scheduled_hours) := by
  have happ := scheduled_hours_amended naTable true 9
    [enrich_row naTable true 9 (naRow, 2)] rfl
  refine ⟨happ.1 0 naRow (enrich_row naTable true 9 (naRow, 2)) rfl rfl rfl, ?_⟩
  refine happ.2 ?_ (enrich_row naTable true 9 (naRow, 2)) (List.mem_singleton.2 rfl)
  intro r hr q hq
  have hr2 : r ∈ [naRow] := hr
  rw [List.mem_singleton] at hr2
  subst hr2
  exact Option.noConfusion hq

/-- **C4 (counterexample).** The claim "scheduled_hours is always
non-negative" fails on the code: a raw `total_scheduled` that parses to −5
passes through normalisation unchanged, so `scheduled_hours = −5 < 0`. -/
theorem scheduled_hours_counterexample :
    (prepare_shifts negTable true 9).map (fun out => out.map (fun r => r.scheduled_hours))
      = Except.ok [(-5 : ℚ)]
    ∧ ((-5 : ℚ) < 0) := by
  constructor
  · rfl
  · norm_num

/-- **C6 (amended).** On a zero-row input with the expected columns, the
pipeline and all six aggregators return zero-row results and no error; the
summary keeps its usual columns, while the granular, pivot, weekly,
monthly and team roll-up views return the (empty) input frame unchanged
and so carry the input's columns rather than their nonempty-case output
columns. -/
theorem empty_input_spec (en : Bool) (sh : ℚ) (c : Nat) (team : String) :
    prepare_shifts emptyTable en sh = Except.ok []
    ∧ flag_overtime_days [] c = []
    ∧ add_shift_duration_and_flags [] sh = []
    ∧ build_granular_table [] team = []
    ∧ build_summary_table [] team = []
    ∧ build_pivot_from_granular [] = []
    ∧ summarise_weekly_hours [] team = []
    ∧ summarise_monthly_hours [] team = []
    ∧ build_teams_with_ot [] = []
    ∧ build_summary_table_columns
        = ["team", "full_name", "email", "days_OT", "days_BH", "hours_OT", "hours_BH"]
    ∧ build_granular_table_columns enrichedColumns true = enrichedColumns
    ∧ build_pivot_from_granular_columns enrichedColumns true false false = enrichedColumns
    ∧ summarise_weekly_hours_columns enrichedColumns true = enrichedColumns
    ∧ summarise_monthly_hours_columns enrichedColumns true = enrichedColumns
    ∧ build_teams_with_ot_columns build_summary_table_columns true
        = build_summary_table_columns :=
  ⟨rfl, rfl, rfl, rfl, rfl, rfl, rfl, rfl, rfl, rfl, rfl, rfl, rfl, rfl, rfl⟩

/-- **C6 (counterexample).** The claim fails in its "correct columns"
part: on empty input the granular table is returned before the granular
projection is applied, so its columns are the enriched input columns — the
classifier column `is_ot_day` is present and the granular column `date` is
absent — unlike the nonempty case. -/
theorem empty_input_counterexample :
    prepare_shifts emptyTable true 9 = Except.ok []
    ∧ build_granular_table_columns enrichedColumns true
        ≠ build_granular_table_columns enrichedColumns false
    ∧ "is_ot_day" ∈ build_granular_table_columns enrichedColumns true
    ∧ "date" ∉ build_granular_table_columns enrichedColumns true := by
  exact ⟨rfl, by decide, by decide, by decide⟩

/-- **C9.** Row order of the input is irrelevant: each row's `week_start`
is a function of its own date; the distinct-date lists that drive the
classifier are invariant under permutation of the table; consequently the
classifier's output on a permuted table is a permutation of its output on
the original, with every row's flag determined by the ascending distinct
dates of its (email, week_start) group. -/
theorem order_independence (l l' : List EnrichedShift) (c : Nat)
    (t : RawTable) (en : Bool) (sh : ℚ) (out : List EnrichedShift)
    (hperm : List.Perm l l') (hout : prepare_shifts t en sh = Except.ok out) :
    (∀ r ∈ out, r.week_start = r.shift_date - r.shift_date % 7)
    ∧ (∀ e w, groupDates l e w = groupDates l' e w)
    ∧ List.Perm (flag_overtime_days l c) (flag_overtime_days l' c)
    ∧ (∀ r ∈ flag_overtime_days l c,
        r.is_ot_day = ot_flag l c r.email r.week_start r.shift_date) := by
  have hGD := groupDates_perm_invariant l l' hperm
  refine ⟨?_, hGD, ?_, fun r hr => flag_mem_spec l c r hr⟩
  · intro r hr
    obtain ⟨r₀, d, _, _, rfl⟩ := prepare_shifts_mem t en sh out hout r hr
    rfl
  · refine ((flag_overtime_days_perm l c).trans ?_).trans
      (flag_overtime_days_perm l' c).symm
    refine (hperm.map _).trans ?_
    have hcong : ∀ r ∈ l',
        ({ r with is_ot_day := ot_flag l c r.email r.week_start r.shift_date })
          = ({ r with is_ot_day := ot_flag l' c r.email r.week_start r.shift_date }) := by
      intro r _
      simp only [ot_flag, hGD]
    rw [List.map_congr_left hcong]

theorem order_independence_witness :
    groupDates wShifts "a@x" 0 = groupDates wShiftsRev "a@x" 0 :=
  (order_independence wShifts wShiftsRev 1 wRawTable true 9 wEnriched
    (by with_unfolding_all decide) rfl).2.1 "a@x" 0

theorem day_type_of_overtime (s : EnrichedShift) :
    (day_type_of s = "Overtime") ↔ (s.is_bank_holiday = false ∧ s.is_ot_day = true) := by
  unfold day_type_of
  cases hbh : s.is_bank_holiday <;> cases hot : s.is_ot_day <;> decide

theorem day_type_of_bank_holiday (s : EnrichedShift) :
    (day_type_of s = "Bank holiday") ↔ s.is_bank_holiday = true := by
  unfold day_type_of
  cases hbh : s.is_bank_holiday <;> cases hot : s.is_ot_day <;> decide

theorem build_granular_table_perm (l : List EnrichedShift) (team : String) :
    List.Perm (build_granular_table l team)
      ((l.filter (fun s => s.is_ot_day || s.is_bank_holiday)).map (toGranularRow team)) := by
  simp only [build_granular_table]
  by_cases hemp : l.filter (fun s => s.is_ot_day || s.is_bank_holiday) = []
  · rw [if_pos hemp, hemp]
    exact List.Perm.refl _
  · rw [if_neg hemp]
    exact List.perm_insertionSort _ _

theorem build_granular_table_team (l : List EnrichedShift) (team : String)
    (r : GranularRow) (hr : r ∈ build_granular_table l team) : r.team = team := by
  have hmem := (build_granular_table_perm l team).mem_iff.1 hr
  obtain ⟨s, _, rfl⟩ := List.mem_map.1 hmem
  rfl

theorem sum_map_filter_ite {α : Type} (l : List α) (p : α → Bool) (f : α → ℚ) :
    ((l.filter p).map f).sum = (l.map (fun x => if p x then f x else 0)).sum := by
  induction l with
  | nil => rfl
  | cons a t ih => cases hpa : p a <;> simp [List.filter_cons, hpa, ih]

theorem count_cast_eq_sum_ones {α : Type} (l : List α) (p : α → Bool) :
    ((l.countP p : Nat) : ℚ) = ((l.filter p).map (fun _ => (1 : ℚ))).sum := by
  induction l with
  | nil => rfl
  | cons a t ih =>
    cases hpa : p a <;>
      simp [List.countP_cons, List.filter_cons, hpa, ih, add_comm]

theorem granular_filter_sum (l : List EnrichedShift) (team : String)
    (P : GranularRow → Bool) (f : GranularRow → ℚ) :
    (((build_granular_table l team).filter P).map f).sum
      = ((l.filter (fun s => P (toGranularRow team s)
            && (s.is_ot_day || s.is_bank_holiday))).map
          (fun s => f (toGranularRow team s))).sum := by
  rw [((((build_granular_table_perm l team).filter P)).map f).sum_eq]
  rw [List.filter_map, List.map_map, List.filter_filter]
  rfl

theorem build_summary_table_elim (l : List EnrichedShift) (team : String)
    (p : SummaryRow) (hp : p ∈ build_summary_table l team) :
    p.team = team
    ∧ p.days_OT = ((l.countP (fun s =>
        s.full_name = p.full_name ∧ s.email = p.email ∧ s.is_ot_day = true)) : ℚ)
    ∧ p.days_BH = ((l.countP (fun s =>
        s.full_name = p.full_name ∧ s.email = p.email ∧ s.is_bank_holiday = true)) : ℚ)
    ∧ p.hours_OT = ((l.filter (fun s =>
        s.full_name = p.full_name ∧ s.email = p.email)).map (fun s => s.ot_hours)).sum
    ∧ p.hours_BH = ((l.filter (fun s =>
        s.full_name = p.full_name ∧ s.email = p.email)).map (fun s => s.bh_hours)).sum := by
  simp only [build_summary_table] at hp
  rw [List.mem_insertionSort, List.mem_map] at hp
  obtain ⟨k, hk, rfl⟩ := hp
  rw [List.mem_insertionSort] at hk
  have hk2 := (uniqueInOrder_mem _ _).1 hk
  obtain ⟨s₀, _, hks⟩ := List.mem_map.1 hk2
  obtain ⟨kt, kn, ke⟩ := k
  have hk1 : kt = team := (congrArg Prod.fst hks).symm
  dsimp only
  rw [hk1]
  refine ⟨rfl, ?_, ?_, ?_, ?_⟩
  · congr 1
    rw [List.countP_filter]
    refine List.countP_congr ?_
    intro s _
    simp only [Bool.and_eq_true, decide_eq_true_eq]
    constructor
    · rintro ⟨h1, _, h2, h3⟩
      exact ⟨h2, h3, h1⟩
    · rintro ⟨h2, h3, h1⟩
      exact ⟨h1, trivial, h2, h3⟩
  · congr 1
    rw [List.countP_filter]
    refine List.countP_congr ?_
    intro s _
    simp only [Bool.and_eq_true, decide_eq_true_eq]
    constructor
    · rintro ⟨h1, _, h2, h3⟩
      exact ⟨h2, h3, h1⟩
    · rintro ⟨h2, h3, h1⟩
      exact ⟨h1, trivial, h2, h3⟩
  · refine congrArg List.sum (congrArg (List.map (fun s : EnrichedShift => s.ot_hours)) ?_)
    refine List.filter_congr ?_
    intro s _
    rw [decide_eq_decide]
    constructor
    · rintro ⟨_, h2, h3⟩
      exact ⟨h2, h3⟩
    · rintro ⟨h2, h3⟩
      exact ⟨rfl, h2, h3⟩
  · refine congrArg List.sum (congrArg (List.map (fun s : EnrichedShift => s.bh_hours)) ?_)
    refine List.filter_congr ?_
    intro s _
    rw [decide_eq_decide]
    constructor
    · rintro ⟨_, h2, h3⟩
      exact ⟨h2, h3⟩
    · rintro ⟨h2, h3⟩
      exact ⟨rfl, h2, h3⟩

theorem build_pivot_from_granular_elim (g : List GranularRow) (p : PivotRow)
    (hp : p ∈ build_pivot_from_granular g) :
    (∃ r ∈ g, r.team = p.team ∧ r.full_name = p.full_name ∧ r.email = p.email)
    ∧ p.days_OT = (if g.any (fun r => r.day_type == "Overtime")
        then some ((((g.filter (fun r => r.team = p.team ∧ r.full_name = p.full_name
              ∧ r.email = p.email)).filter (fun r => r.day_type = "Overtime")).map
            (fun r => r.shift_days)).sum)
        else none)
    ∧ p.days_BH = (if g.any (fun r => r.day_type == "Bank holiday")
        then some ((((g.filter (fun r => r.team = p.team ∧ r.full_name = p.full_name
              ∧ r.email = p.email)).filter (fun r => r.day_type = "Bank holiday")).map
            (fun r => r.shift_days)).sum)
        else none)
    ∧ p.hours_OT = (if g.any (fun r => r.day_type == "Overtime")
        then some ((((g.filter (fun r => r.team = p.team ∧ r.full_name = p.full_name
              ∧ r.email = p.email)).filter (fun r => r.day_type = "Overtime")).map
            (fun r => r.scheduled_hours)).sum)
        else none)
    ∧ p.hours_BH = (if g.any (fun r => r.day_type == "Bank holiday")
        then some ((((g.filter (fun r => r.team = p.team ∧ r.full_name = p.full_name
              ∧ r.email = p.email)).filter (fun r => r.day_type = "Bank holiday")).map
            (fun r => r.scheduled_hours)).sum)
        else none) := by
  simp only [build_pivot_from_granular] at hp
  by_cases hg : g = []
  · rw [if_pos hg] at hp
    cases hp
  · rw [if_neg hg] at hp
    rw [List.mem_map] at hp
    obtain ⟨k, hk, rfl⟩ := hp
    rw [List.mem_insertionSort] at hk
    have hk2 := (uniqueInOrder_mem _ _).1 hk
    obtain ⟨r, hr, hkr⟩ := List.mem_map.1 hk2
    obtain ⟨kt, kn, ke⟩ := k
    refine ⟨⟨r, hr, ?_, ?_, ?_⟩, rfl, rfl, rfl, rfl⟩
    · exact congrArg (fun x => x.1) hkr
    · exact congrArg (fun x => x.2.1) hkr
    · exact congrArg (fun x => x.2.2) hkr

/-- **C10.** In the Summary table, days_OT counts the shift *rows* flagged
`is_ot_day` for that person (and days_BH the rows flagged
`is_bank_holiday`), not the distinct flagged calendar dates — so two
shifts on the same overtime date contribute 2. -/
theorem summary_days_count_rows (l : List EnrichedShift) (team : String)
    (p : SummaryRow) (hp : p ∈ build_summary_table l team) :
    p.days_OT = ((l.countP (fun s =>
        s.full_name = p.full_name ∧ s.email = p.email ∧ s.is_ot_day = true)) : ℚ)
    ∧ p.days_BH = ((l.countP (fun s =>
        s.full_name = p.full_name ∧ s.email = p.email ∧ s.is_bank_holiday = true)) : ℚ) :=
  ⟨(build_summary_table_elim l team p hp).2.1,
    (build_summary_table_elim l team p hp).2.2.1⟩

theorem summary_days_count_rows_witness :
    (wDoubleRow ∈ build_summary_table wDoubleShift "Fraud Operations")
    ∧ wDoubleRow.days_OT = ((wDoubleShift.countP (fun s =>
        s.full_name = wDoubleRow.full_name ∧ s.email = wDoubleRow.email
          ∧ s.is_ot_day = true)) : ℚ)
    ∧ wDoubleRow.days_OT = 2
    ∧ (uniqueInOrder ((wDoubleShift.filter (fun s => s.is_ot_day)).map
        (fun s => s.shift_date))).length = 1 :=
  ⟨by with_unfolding_all decide,
    (summary_days_count_rows wDoubleShift "Fraud Operations" wDoubleRow
      (by with_unfolding_all decide)).1,
    by with_unfolding_all decide, by with_unfolding_all decide⟩

/-- **C1 (counterexample).** On a pipeline-produced enriched table with one
overtime shift of 4.5 hours (team shift 9 h), the person appears in both
views but Pivot's days_OT is the shift_days sum 1/2 while Summary's is the
flagged-row count 1: the tables do not agree on the four columns. -/
theorem pivot_summary_counterexample :
    build_pivot_from_granular (build_granular_table cexHalf "Fraud Operations") = [pCexRow]
    ∧ build_summary_table cexHalf "Fraud Operations" = [qCexRow]
    ∧ pCexRow.full_name = qCexRow.full_name
    ∧ pCexRow.email = qCexRow.email
    ∧ pCexRow.days_OT ≠ some qCexRow.days_OT
    ∧ pCexRow.days_OT ≠ none :=
  ⟨by with_unfolding_all decide, by with_unfolding_all decide, rfl, rfl,
    by with_unfolding_all decide, by with_unfolding_all decide⟩

/-- **C1 (amended).** For an enriched shift table with §4.4-consistent
derived columns, in which no shift is flagged both overtime and bank
holiday and every flagged shift has `shift_days = 1` (scheduled hours equal
to the team shift length), Pivot and Summary agree on days_OT, days_BH,
hours_OT and hours_BH for every person present in both; a four-column
field absent from the Pivot (its day_type occurring nowhere in Granular)
corresponds to a Summary value of 0. -/
theorem pivot_summary_agreement (l : List EnrichedShift) (team : String)
    (hot : ∀ s ∈ l, s.ot_hours = if s.is_ot_day then s.scheduled_hours else 0)
    (hbh : ∀ s ∈ l, s.bh_hours = if s.is_bank_holiday then s.scheduled_hours else 0)
    (hnoboth : ∀ s ∈ l, s.is_ot_day = true → s.is_bank_holiday = false)
    (hone : ∀ s ∈ l, (s.is_ot_day = true ∨ s.is_bank_holiday = true) → s.shift_days = 1)
    (p : PivotRow) (q : SummaryRow)
    (hp : p ∈ build_pivot_from_granular (build_granular_table l team))
    (hq : q ∈ build_summary_table l team)
    (hkn : p.full_name = q.full_name) (hke : p.email = q.email) :
    (p.days_OT = some q.days_OT ∨ (p.days_OT = none ∧ q.days_OT = 0))
    ∧ (p.days_BH = some q.days_BH ∨ (p.days_BH = none ∧ q.days_BH = 0))
    ∧ (p.hours_OT = some q.hours_OT ∨ (p.hours_OT = none ∧ q.hours_OT = 0))
    ∧ (p.hours_BH = some q.hours_BH ∨ (p.hours_BH = none ∧ q.hours_BH = 0)) := by
  obtain ⟨⟨r0, hr0g, hr0t, _, _⟩, hpdOT, hpdBH, hphOT, hphBH⟩ :=
    build_pivot_from_granular_elim _ p hp
  obtain ⟨_, hqdOT, hqdBH, hqhOT, hqhBH⟩ := build_summary_table_elim l team q hq
  have hpteam : p.team = team :=
    hr0t.symm.trans (build_granular_table_team l team r0 hr0g)
  have hcongOT : ∀ s ∈ l,
      ((decide ((toGranularRow team s).day_type = "Overtime")
          && decide ((toGranularRow team s).team = p.team
            ∧ (toGranularRow team s).full_name = p.full_name
            ∧ (toGranularRow team s).email = p.email))
        && (s.is_ot_day || s.is_bank_holiday))
      = (s.is_ot_day && decide (s.full_name = q.full_name ∧ s.email = q.email)) := by
    intro s hs
    have hb := hnoboth s hs
    have hstd : ¬ (("Standard" : String) = "Overtime") := by decide
    have hbho : ¬ (("Bank holiday" : String) = "Overtime") := by decide
    show ((decide (day_type_of s = "Overtime")
        && decide (team = p.team ∧ s.full_name = p.full_name ∧ s.email = p.email))
        && (s.is_ot_day || s.is_bank_holiday)) = _
    cases hot2 : s.is_ot_day <;> cases hbh2 : s.is_bank_holiday <;>
      simp_all [day_type_of, hpteam, hkn, hke]
  have hcongBH : ∀ s ∈ l,
      ((decide ((toGranularRow team s).day_type = "Bank holiday")
          && decide ((toGranularRow team s).team = p.team
            ∧ (toGranularRow team s).full_name = p.full_name
            ∧ (toGranularRow team s).email = p.email))
        && (s.is_ot_day || s.is_bank_holiday))
      = (s.is_bank_holiday && decide (s.full_name = q.full_name ∧ s.email = q.email)) := by
    intro s hs
    have hsb : ¬ (("Standard" : String) = "Bank holiday") := by decide
    have hob : ¬ (("Overtime" : String) = "Bank holiday") := by decide
    show ((decide (day_type_of s = "Bank holiday")
        && decide (team = p.team ∧ s.full_name = p.full_name ∧ s.email = p.email))
        && (s.is_ot_day || s.is_bank_holiday)) = _
    cases hot2 : s.is_ot_day <;> cases hbh2 : s.is_bank_holiday <;>
      simp_all [day_type_of, hpteam, hkn, hke]
  have hqOT : q.hours_OT = ((l.filter (fun s => s.is_ot_day
      && decide (s.full_name = q.full_name ∧ s.email = q.email))).map
      (fun s => s.scheduled_hours)).sum := by
    rw [hqhOT, List.map_congr_left (fun s hs => hot s (List.mem_of_mem_filter hs)),
      ← sum_map_filter_ite, List.filter_filter]
  have hqBH : q.hours_BH = ((l.filter (fun s => s.is_bank_holiday
      && decide (s.full_name = q.full_name ∧ s.email = q.email))).map
      (fun s => s.scheduled_hours)).sum := by
    rw [hqhBH, List.map_congr_left (fun s hs => hbh s (List.mem_of_mem_filter hs)),
      ← sum_map_filter_ite, List.filter_filter]
  have hnoOTrow : (build_granular_table l team).any (fun r => r.day_type == "Overtime") = false →
      ∀ s ∈ l, s.is_ot_day = false := by
    intro hno s hs
    cases hot2 : s.is_ot_day
    · rfl
    · exfalso
      have hbh2 := hnoboth s hs hot2
      have hmemg : toGranularRow team s ∈ build_granular_table l team := by
        refine (build_granular_table_perm l team).mem_iff.2 ?_
        refine List.mem_map.2 ⟨s, ?_, rfl⟩
        refine List.mem_filter.2 ⟨hs, ?_⟩
        rw [hot2]
        rfl
      have hdt : (toGranularRow team s).day_type = "Overtime" :=
        (day_type_of_overtime s).2 ⟨hbh2, hot2⟩
      have hany : (build_granular_table l team).any (fun r => r.day_type == "Overtime") = true := by
        rw [List.any_eq_true]
        exact ⟨toGranularRow team s, hmemg, by rw [hdt]; exact beq_self_eq_true _⟩
      rw [hno] at hany
      cases hany
  have hnoBHrow : (build_granular_table l team).any
        (fun r => r.day_type == "Bank holiday") = false →
      ∀ s ∈ l, s.is_bank_holiday = false := by
    intro hno s hs
    cases hbh2 : s.is_bank_holiday
    · rfl
    · exfalso
      have hmemg : toGranularRow team s ∈ build_granular_table l team := by
        refine (build_granular_table_perm l team).mem_iff.2 ?_
        refine List.mem_map.2 ⟨s, ?_, rfl⟩
        refine List.mem_filter.2 ⟨hs, ?_⟩
        rw [hbh2]
        simp
      have hdt : (toGranularRow team s).day_type = "Bank holiday" :=
        (day_type_of_bank_holiday s).2 hbh2
      have hany : (build_granular_table l team).any
          (fun r => r.day_type == "Bank holiday") = true := by
        rw [List.any_eq_true]
        exact ⟨toGranularRow team s, hmemg, by rw [hdt]; exact beq_self_eq_true _⟩
      rw [hno] at hany
      cases hany
  refine ⟨?_, ?_, ?_, ?_⟩
  · by_cases hOTb : (build_granular_table l team).any (fun r => r.day_type == "Overtime") = true
    · left
      rw [hpdOT, if_pos hOTb, hqdOT]
      congr 1
      rw [List.filter_filter, granular_filter_sum]
      rw [List.filter_congr hcongOT]
      have hONE : ∀ s ∈ l.filter (fun s => s.is_ot_day
          && decide (s.full_name = q.full_name ∧ s.email = q.email)),
          (toGranularRow team s).shift_days = (1 : ℚ) := by
        intro s hs
        have hsl := List.mem_of_mem_filter hs
        have hot2 : s.is_ot_day = true := by
          have hflags := (List.mem_filter.1 hs).2
          rw [Bool.and_eq_true] at hflags
          exact hflags.1
        show s.shift_days = 1
        exact hone s hsl (Or.inl hot2)
      rw [List.map_congr_left hONE, ← count_cast_eq_sum_ones]
      congr 1
      refine List.countP_congr ?_
      intro s _
      simp only [Bool.and_eq_true, decide_eq_true_eq]
      constructor
      · rintro ⟨h1, h2, h3⟩
        exact ⟨h2, h3, h1⟩
      · rintro ⟨h2, h3, h1⟩
        exact ⟨h1, h2, h3⟩
    · right
      have hOTf : (build_granular_table l team).any
          (fun r => r.day_type == "Overtime") = false := by
        cases h : (build_granular_table l team).any (fun r => r.day_type == "Overtime")
        · rfl
        · exact absurd h hOTb
      have hallOT := hnoOTrow hOTf
      constructor
      · rw [hpdOT, if_neg hOTb]
      · rw [hqdOT]
        have hcnt : l.countP (fun s => decide (s.full_name = q.full_name
            ∧ s.email = q.email ∧ s.is_ot_day = true)) = 0 := by
          refine List.countP_eq_zero.2 ?_
          intro s hs hpred
          rw [decide_eq_true_eq] at hpred
          rw [hallOT s hs] at hpred
          exact Bool.false_ne_true hpred.2.2
        rw [hcnt]
        exact Nat.cast_zero
  · by_cases hBHb : (build_granular_table l team).any
        (fun r => r.day_type == "Bank holiday") = true
    · left
      rw [hpdBH, if_pos hBHb, hqdBH]
      congr 1
      rw [List.filter_filter, granular_filter_sum]
      rw [List.filter_congr hcongBH]
      have hONE : ∀ s ∈ l.filter (fun s => s.is_bank_holiday
          && decide (s.full_name = q.full_name ∧ s.email = q.email)),
          (toGranularRow team s).shift_days = (1 : ℚ) := by
        intro s hs
        have hsl := List.mem_of_mem_filter hs
        have hbh2 : s.is_bank_holiday = true := by
          have hflags := (List.mem_filter.1 hs).2
          rw [Bool.and_eq_true] at hflags
          exact hflags.1
        show s.shift_days = 1
        exact hone s hsl (Or.inr hbh2)
      rw [List.map_congr_left hONE, ← count_cast_eq_sum_ones]
      congr 1
      refine List.countP_congr ?_
      intro s _
      simp only [Bool.and_eq_true, decide_eq_true_eq]
      constructor
      · rintro ⟨h1, h2, h3⟩
        exact ⟨h2, h3, h1⟩
      · rintro ⟨h2, h3, h1⟩
        exact ⟨h1, h2, h3⟩
    · right
      have hBHf : (build_granular_table l team).any
          (fun r => r.day_type == "Bank holiday") = false := by
        cases h : (build_granular_table l team).any (fun r => r.day_type == "Bank holiday")
        · rfl
        · exact absurd h hBHb
      have hallBH := hnoBHrow hBHf
      constructor
      · rw [hpdBH, if_neg hBHb]
      · rw [hqdBH]
        have hcnt : l.countP (fun s => decide (s.full_name = q.full_name
            ∧ s.email = q.email ∧ s.is_bank_holiday = true)) = 0 := by
          refine List.countP_eq_zero.2 ?_
          intro s hs hpred
          rw [decide_eq_true_eq] at hpred
          rw [hallBH s hs] at hpred
          exact Bool.false_ne_true hpred.2.2
        rw [hcnt]
        exact Nat.cast_zero
  · by_cases hOTb : (build_granular_table l team).any (fun r => r.day_type == "Overtime") = true
    · left
      rw [hphOT, if_pos hOTb, hqOT]
      congr 1
      rw [List.filter_filter, granular_filter_sum]
      rw [List.filter_congr hcongOT]
      rfl
    · right
      have hOTf : (build_granular_table l team).any
          (fun r => r.day_type == "Overtime") = false := by
        cases h : (build_granular_table l team).any (fun r => r.day_type == "Overtime")
        · rfl
        · exact absurd h hOTb
      have hallOT := hnoOTrow hOTf
      constructor
      · rw [hphOT, if_neg hOTb]
      · rw [hqOT]
        have hfil : l.filter (fun s => s.is_ot_day
            && decide (s.full_name = q.full_name ∧ s.email = q.email)) = [] := by
          refine List.filter_eq_nil_iff.2 ?_
          intro s hs hpred
          rw [hallOT s hs] at hpred
          simp at hpred
        rw [hfil]
        rfl
  · by_cases hBHb : (build_granular_table l team).any
        (fun r => r.day_type == "Bank holiday") = true
    · left
      rw [hphBH, if_pos hBHb, hqBH]
      congr 1
      rw [List.filter_filter, granular_filter_sum]
      rw [List.filter_congr hcongBH]
      rfl
    · right
      have hBHf : (build_granular_table l team).any
          (fun r => r.day_type == "Bank holiday") = false := by
        cases h : (build_granular_table l team).any (fun r => r.day_type == "Bank holiday")
        · rfl
        · exact absurd h hBHb
      have hallBH := hnoBHrow hBHf
      constructor
      · rw [hphBH, if_neg hBHb]
      · rw [hqBH]
        have hfil : l.filter (fun s => s.is_bank_holiday
            && decide (s.full_name = q.full_name ∧ s.email = q.email)) = [] := by
          refine List.filter_eq_nil_iff.2 ?_
          intro s hs hpred
          rw [hallBH s hs] at hpred
          simp at hpred
        rw [hfil]
        rfl

theorem pivot_summary_agreement_witness :
    (pW.days_OT = some qW.days_OT ∨ (pW.days_OT = none ∧ qW.days_OT = 0))
    ∧ (pW.days_BH = some qW.days_BH ∨ (pW.days_BH = none ∧ qW.days_BH = 0))
    ∧ (pW.hours_OT = some qW.hours_OT ∨ (pW.hours_OT = none ∧ qW.hours_OT = 0))
    ∧ (pW.hours_BH = some qW.hours_BH ∨ (pW.hours_BH = none ∧ qW.hours_BH = 0)) :=
  pivot_summary_agreement wAgree "Fraud Operations"
    (by with_unfolding_all decide) (by with_unfolding_all decide)
    (by with_unfolding_all decide) (by with_unfolding_all decide)
    pW qW (by with_unfolding_all decide) (by with_unfolding_all decide) rfl rfl
